import Mathlib

/-!
# ghreleasemodproxy: blob server and release gateway

A shallow embedding of `internal/netlify/blobs/server/server.go` and of the
`GET /@latest` handler of `main.go`, with the properties of the delete
operation, the server constructor, the URL patterns, the observability
callback and the latest-release selection.
-/

namespace GhReleaseModProxy

/-! ## Regular expressions (Go `regexp`, leftmost-first semantics) -/

/-- Syntax of the fragment of Go regular expressions used by the two URL
patterns: literal strings, the negated one-character class `[^c]`,
concatenation, the greedy operators `?`, `*`, `+`, and named groups. -/
inductive Regex where
  | str (p : List Char)
  | notClass (c : Char)
  | cat (a b : Regex)
  | quest (a : Regex)
  | star (a : Regex)
  | plus (a : Regex)
  | group (name : String) (a : Regex)

/-- A matcher thread: the input still to be read and the groups captured
so far (name, captured text), in order of completion. -/
abbrev MState := List Char × List (String × List Char)

/-- Greedy iteration: all ways of repeating `step` zero or more times, longest
first. An iteration that consumes nothing is not repeated. `fuel` bounds the
number of iterations and is taken to be the length of the input. -/
def starRun (step : MState → List MState) : Nat → MState → List MState
  | 0, st => [st]
  | n + 1, st =>
    (((step st).filter (fun st1 => decide (st1.1.length < st.1.length))).flatMap
      (starRun step n)) ++ [st]

/-- All the ways a regular expression matches at the start of the input, in
the priority order of a backtracking (leftmost-first) matcher: the head of the
list is the match Go reports for that start position. -/
def run : Regex → MState → List MState
  | .str p, st => if p <+: st.1 then [(st.1.drop p.length, st.2)] else []
  | .notClass c, st =>
    match st.1 with
    | [] => []
    | x :: xs => if x = c then [] else [(xs, st.2)]
  | .cat a b, st => (run a st).flatMap (fun st1 => run b st1)
  | .quest a, st => run a st ++ [st]
  | .star a, st => starRun (fun st1 => run a st1) st.1.length st
  | .plus a, st =>
    (run a st).flatMap (starRun (fun st1 => run a st1) st.1.length)
  | .group name a, st =>
    (run a st).map
      (fun st1 => (st1.1, st1.2 ++ [(name, st.1.take (st.1.length - st1.1.length))]))

/-- The preferred match of `re` at the start of `s`, if any: the captured
groups. -/
def matchAt (re : Regex) (s : List Char) : Option (List (String × List Char)) :=
  (run re (s, [])).head?.map (fun st => st.2)

/-- Unanchored search as done by `Regexp.FindStringSubmatch`: the leftmost
start offset at which the pattern matches, with the groups of the preferred
match there. `off` is the offset of `s` in the searched text. -/
def findFrom (re : Regex) : Nat → List Char → Option (Nat × List (String × List Char))
  | off, [] => (matchAt re []).map (fun g => (off, g))
  | off, c :: s =>
    match matchAt re (c :: s) with
    | some g => some (off, g)
    | none => findFrom re (off + 1) s

/-- Result of `re.FindStringSubmatch(s)`: start offset and named groups. -/
def find (re : Regex) (s : String) : Option (Nat × List (String × List Char)) :=
  findFrom re 0 s.toList

/-- Result of `re.MatchString(s)`. -/
def matchString (re : Regex) (s : String) : Bool :=
  (find re s).isSome

/-- Text of the named group in a match (empty when the group is absent). -/
def groupText (g : List (String × List Char)) (name : String) : String :=
  match g.find? (fun e => e.1 == name) with
  | some e => String.mk e.2
  | none => ""

/-- Pattern
`/api/v1/blobs/(?<site_id>[^/]+)/(?<store_name>[^/]+)/?(?<key>[^?]*)`. -/
def apiURLPath : Regex :=
  .cat (.str "/api/v1/blobs/".toList)
    (.cat (.group "site_id" (.plus (.notClass '/')))
      (.cat (.str "/".toList)
        (.cat (.group "store_name" (.plus (.notClass '/')))
          (.cat (.quest (.str "/".toList))
            (.group "key" (.star (.notClass '?')))))))

/-- Pattern `/api/v1/sites/(?<site_id>[^/]+)/blobs/?(?<key>[^?]*)`. -/
def legacyAPIURLPath : Regex :=
  .cat (.str "/api/v1/sites/".toList)
    (.cat (.group "site_id" (.plus (.notClass '/')))
      (.cat (.str "/blobs".toList)
        (.cat (.quest (.str "/".toList))
          (.group "key" (.star (.notClass '?'))))))

def legacyDefaultStore : String := "production"

def regionPrefix : String := "region:"

/-- Address triple (site id, store name, key) read from a current-scheme path:
the three named groups of `apiURLPath`. -/
def currentAddress (path : String) : Option (String × String × String) :=
  (find apiURLPath path).map
    (fun m => (groupText m.2 "site_id", groupText m.2 "store_name", groupText m.2 "key"))

/-- Address triple read from a legacy-scheme path: the groups `site_id` and
`key` of `legacyAPIURLPath`, the store name defaulting to
`legacyDefaultStore`. -/
def legacyAddress (path : String) : Option (String × String × String) :=
  (find legacyAPIURLPath path).map
    (fun m => (groupText m.2 "site_id", legacyDefaultStore, groupText m.2 "key"))

/-! ## Data model of the blob server (`server.go`) -/

/-- Go `type Operation string`. -/
abbrev Operation := String

def OperationDelete : Operation := "delete"
def OperationGet : Operation := "get"
def OperationGetMetadata : Operation := "getMetadata"
def OperationList : Operation := "list"
def OperationSet : Operation := "set"

/-- A Go function value handed in by the caller (callback, logger). User code
is not run: a function value is known by a handle, and every invocation of a
callback is recorded, with its argument, in the invocation log of the world. -/
structure FuncRef where
  id : Nat
deriving DecidableEq, Repr

/-- The parameter struct of `OnRequestCallback`. -/
structure RequestEvent where
  Type_ : Operation
  URL : String
deriving DecidableEq, Repr

/-- One recorded invocation `fn(arg)` of an `OnRequestCallback`. -/
structure Call where
  fn : FuncRef
  arg : RequestEvent
deriving DecidableEq, Repr

/-- The fields of `url.URL` read by this code. -/
structure URL where
  Scheme : String
  Host : String
  Path : String
  RawQuery : String
  Fragment : String
deriving DecidableEq, Repr

/-- The logger of a server: the default closure around `log.Print`, or the
function given in the options. -/
inductive Logger where
  | logPrint
  | custom (f : FuncRef)
deriving DecidableEq, Repr

/-- The parts of `http.Server` set by `Start`. -/
structure HTTPServer where
  Addr : String
deriving DecidableEq, Repr

structure BlobsServerOptions where
  Debug : Option Bool
  Directory : String
  Logger : Option FuncRef
  OnRequest : Option FuncRef
  Port : Option Nat
  Token : Option String
deriving DecidableEq, Repr

structure BlobsServer where
  address : String
  debug : Bool
  directory : String
  logger : Logger
  onRequest : Option FuncRef
  port : Nat
  server : Option HTTPServer
  token : Option String
  tokenHash : String
deriving DecidableEq, Repr

/-- Lower-case hexadecimal digit of a value below 16 (`hex.EncodeToString`). -/
def hexDigit (n : Nat) : Char :=
  "0123456789abcdef".toList.getD n '0'

/-- Go `hex.EncodeToString`: two lower-case digits per byte. -/
def hexEncodeToString (bs : List UInt8) : String :=
  String.mk (bs.flatMap (fun b => [hexDigit (b.toNat / 16), hexDigit (b.toNat % 16)]))

/-- Go `[]byte(s)`: the UTF-8 bytes of a string. -/
def stringBytes (s : String) : List UInt8 :=
  s.toList.flatMap String.utf8EncodeChar

/-- `NewBlobsServer`. The keyed hash `hmac.New(sha256.New, key)` is the
parameter `hmacSHA256 key message`; `key` and `r` are the 32 bytes that the two
`rand.Read` calls produce (the second is read only when no token is given). -/
def NewBlobsServer (hmacSHA256 : List UInt8 → List UInt8 → List UInt8)
    (key r : List UInt8) (options : BlobsServerOptions) : BlobsServer :=
  let address := ""
  let debug := match options.Debug with
    | some d => d
    | none => false
  let directory := options.Directory
  let logger := match options.Logger with
    | some f => Logger.custom f
    | none => Logger.logPrint
  let onRequest := options.OnRequest
  let port := match options.Port with
    | some p => p
    | none => 0
  let token := options.Token
  let mac := match token with
    | some t => hmacSHA256 key (stringBytes t)
    | none => hmacSHA256 key r
  let tokenHash := hexEncodeToString mac
  { address := address
    debug := debug
    directory := directory
    logger := logger
    onRequest := onRequest
    port := port
    server := none
    token := token
    tokenHash := tokenHash }

/-- The dynamic value passed as `urlRaw any`: a string, a `*url.URL` (possibly
the nil pointer), or a value of any other type. -/
inductive URLRaw where
  | str (v : String)
  | url (v : Option URL)
  | other
deriving DecidableEq, Repr

/-- `BlobsServer.dispatchOnRequestEvent`, on the invocation log. A Go panic is
`Except.error`. -/
def dispatchOnRequestEvent (b : BlobsServer) (type_ : Operation) (urlRaw : URLRaw)
    (calls : List Call) : Except String (List Call) :=
  match b.onRequest with
  | none => .ok calls
  | some onRequest =>
    match urlRaw with
    | .str v => .ok (calls ++ [{ fn := onRequest, arg := { Type_ := type_, URL := v } }])
    | .url (some v) =>
      let urlPath := if v.RawQuery ≠ "" then v.Path ++ ("?" ++ v.RawQuery) else v.Path
      .ok (calls ++ [{ fn := onRequest, arg := { Type_ := type_, URL := urlPath } }])
    | .url none => .error "invalid memory address or nil pointer dereference"
    | .other => .error "unexpected type"

/-- The result of `parseAPIRequest`, as far as `Delete` reads it. -/
structure APIMatch where
  UseSignedURL : Bool
  URL : Option URL
deriving DecidableEq, Repr

/-- The result of `getLocalPaths`, as far as `Delete` reads it. The test
`!dataPath || !key` of the source is the test for the empty string. -/
structure LocalPaths where
  DataPath : String
  Key : String
  MetadataPath : String
deriving DecidableEq, Repr

/-- The parts of `http.Request` read by the server. -/
structure Request where
  Method : String
  Header : List (String × String)
  URL : Option URL
deriving DecidableEq, Repr

/-- What a handler wrote to its `http.ResponseWriter`: status code and body
(`none` for the nil body). -/
structure Response where
  status : Nat
  body : Option String
deriving DecidableEq, Repr

/-- An error returned by the filesystem; `isNotExist` is
`errors.Is(err, fs.ErrNotExist)`. -/
structure FsError where
  isNotExist : Bool
  msg : String
deriving DecidableEq, Repr

/-- The state `Delete` runs in: the filesystem and the log of callback
invocations made so far. -/
structure World (FS : Type) where
  fs : FS
  calls : List Call
deriving DecidableEq

/-- What `Delete` calls and this file does not define: the two helper methods
of the server that are absent from the source (`parseAPIRequest`,
`getLocalPaths`), the `net/url` functions and `os.RemoveAll` over a filesystem
state `FS`. The helpers and the `net/url` functions compute a result from
their arguments: they neither write to the filesystem nor invoke the callback. -/
structure Env (FS : Type) where
  parseAPIRequest : BlobsServer → Request → Option APIMatch
  getLocalPaths : BlobsServer → URL → LocalPaths
  urlString : URL → String
  urlParse : String → Except String URL
  resolveReference : URL → URL → URL
  removeAll : FS → String → FS × Option FsError

/-- Go `encoding/json` encoding of one character of a string (HTML escaping
on, as in `json.Marshal`). -/
def jsonEscapeChar (c : Char) : List Char :=
  if c = '"' ∨ c = '\\' then ['\\', c]
  else if c.toNat = 8 then ['\\', 'b']
  else if c.toNat = 12 then ['\\', 'f']
  else if c.toNat = 10 then ['\\', 'n']
  else if c.toNat = 13 then ['\\', 'r']
  else if c.toNat = 9 then ['\\', 't']
  else if c.toNat < 32 ∨ c = '<' ∨ c = '>' ∨ c = '&' then
    ['\\', 'u', '0', '0', hexDigit (c.toNat / 16), hexDigit (c.toNat % 16)]
  else if c.toNat = 8232 ∨ c.toNat = 8233 then
    ['\\', 'u', '2', '0', '2', hexDigit (c.toNat % 16)]
  else [c]

/-- Go `json.Marshal` of a string: quoted, with the escapes of
`jsonEscapeChar`. -/
def jsonString (s : String) : String :=
  String.mk (['"'] ++ s.toList.flatMap jsonEscapeChar ++ ['"'])

/-- Go `json.Marshal(map[string]any\x7b"url": url\x7d)`: the object with the
single field `url`. Marshalling such a map never fails. -/
def jsonMarshalURL (url : String) : String :=
  "\x7b\"url\":" ++ jsonString url ++ "\x7d"

/-- Modelled from the spec: `BlobsServer.sendResponse`, absent from the
source; the Response Encoder writes the given status code and body to the
response (section 4.4), and touches neither the filesystem nor the callback. -/
def sendResponse (_r : Request) (status : Nat) (body : Option String) : Response :=
  { status := status, body := body }

/-- Lines 152-159 of `Delete`: the raw URL of the request. -/
def deleteRawURL {FS : Type} (E : Env FS) (apiMatch : Option APIMatch) (r : Request) : String :=
  match apiMatch.bind (fun m => m.URL) with
  | some u => E.urlString u
  | none =>
    match r.URL with
    | some u => E.urlString u
    | none => ""

/-- `BlobsServer.Delete`. A Go panic is `Except.error`; otherwise the world
after the call and the response written. -/
def Delete {FS : Type} (E : Env FS) (b : BlobsServer) (r : Request) (w : World FS) :
    Except String (World FS × Response) :=
  let apiMatch := E.parseAPIRequest b r
  match apiMatch with
  | some { UseSignedURL := true, URL := none } =>
    .error "invalid memory address or nil pointer dereference"
  | some { UseSignedURL := true, URL := some u } =>
    let body := jsonMarshalURL (E.urlString u)
    .ok (w, sendResponse r 200 (some body))
  | _ =>
    let rawURL := deleteRawURL E apiMatch r
    match E.urlParse b.address with
    | .error err => .error err
    | .ok addressParsed =>
      match E.urlParse rawURL with
      | .error err => .error err
      | .ok urlVar =>
        let urlVar := E.resolveReference addressParsed urlVar
        let localPaths := E.getLocalPaths b urlVar
        let dataPath := localPaths.DataPath
        let key := localPaths.Key
        let metadataPath := localPaths.MetadataPath
        if dataPath = "" ∨ key = "" then
          .ok (w, sendResponse r 400 none)
        else
          let fs1 := (E.removeAll w.fs metadataPath).1
          let res := E.removeAll fs1 dataPath
          match res.2 with
          | some err =>
            if err.isNotExist then
              .ok ({ w with fs := res.1 }, sendResponse r 204 none)
            else
              .ok ({ w with fs := res.1 }, sendResponse r 500 none)
          | none => .ok ({ w with fs := res.1 }, sendResponse r 204 none)

/-- Whether the request parser marks the request as signed-URL mode
(`apiMatch != nil && apiMatch.UseSignedURL`). -/
def signedURLMode {FS : Type} (E : Env FS) (b : BlobsServer) (r : Request) : Bool :=
  match E.parseAPIRequest b r with
  | some m => m.UseSignedURL
  | none => false

/-! ## The release gateway (`main.go`, handler of `GET /@latest`) -/

/-- Go `time.Time`, as an instant counted from the zero value `time.Time\x7b\x7d`. -/
structure Time where
  instant : Int
deriving DecidableEq, Repr

/-- The fields of `github.RepositoryRelease` read by the handler, all
pointers. -/
structure RepositoryRelease where
  TagName : Option String
  Prerelease : Option Bool
  PublishedAt : Option Time
deriving DecidableEq, Repr

/-- Method `GetTagName` of `*github.RepositoryRelease` (nil-safe getter). -/
def GetTagName (r : Option RepositoryRelease) : String :=
  match r with
  | some { TagName := some t, .. } => t
  | _ => ""

/-- Method `GetPrerelease` (nil-safe getter). -/
def GetPrerelease (r : Option RepositoryRelease) : Bool :=
  match r with
  | some { Prerelease := some p, .. } => p
  | _ => false

/-- Method `GetPublishedAt` followed by `.Time` (nil-safe getter). -/
def GetPublishedAt (r : Option RepositoryRelease) : Time :=
  match r with
  | some { PublishedAt := some t, .. } => t
  | _ => { instant := 0 }

structure Info where
  Version : String
  Time : Time
deriving DecidableEq, Repr

/-- What a gateway handler wrote: `http.Error(w, msg, code)` or the JSON
encoding of an `Info` (status 200). -/
inductive GatewayResponse where
  | error (msg : String) (code : Nat)
  | json (info : Info)
deriving DecidableEq, Repr

/-- The loop of lines 181-188: the value of `latestRelease` after the loop
(`none` is the nil pointer). -/
def latestLoop : List (Option RepositoryRelease) → Option RepositoryRelease
  | [] => none
  | release :: rest => if GetPrerelease release then latestLoop rest else release

/-- The handler of `GET /@latest`, given the result of
`repositoriesListReleasesAll`. -/
def latestHandler (listed : Except String (List (Option RepositoryRelease))) :
    GatewayResponse :=
  match listed with
  | .error err => .error ("failed to list releases: " ++ err) 500
  | .ok releasesAll =>
    match releasesAll with
    | [] => .error "no releases found" 404
    | first :: _ =>
      let latestRelease := match latestLoop releasesAll with
        | some release => some release
        | none => first
      .json { Version := GetTagName latestRelease, Time := GetPublishedAt latestRelease }

/-! ## Vocabulary of the statements -/

/-- A removal result that `Delete` reports as a server fault: an error that is
not "does not exist". -/
def isFault (err : Option FsError) : Bool :=
  match err with
  | some e => !e.isNotExist
  | none => false

/-- What the delete operation relies on in `os.RemoveAll` when it runs twice:
removals do not bring faults about. A removal of `p` that goes through without
fault in one state also goes through without fault in the state left by the
removal of any path `q` (of `p` itself included), since a removal only takes
entries away and changes neither the kind nor the permissions of what stays.
Nothing is assumed of a removal that faults, nor of a path that is absent: a
removal of an absent path may fault (a parent that is a file, an invalid
name). -/
structure RemoveAllContract {FS : Type} (E : Env FS) : Prop where
  keeps_fault_free : ∀ (fs : FS) (p q : String), isFault (E.removeAll fs p).2 = false →
    isFault (E.removeAll (E.removeAll fs q).1 p).2 = false

/-- Value of a hexadecimal digit, either case. -/
def hexValue (c : Char) : Option Nat :=
  if 48 ≤ c.toNat ∧ c.toNat ≤ 57 then some (c.toNat - 48)
  else if 97 ≤ c.toNat ∧ c.toNat ≤ 102 then some (c.toNat - 87)
  else if 65 ≤ c.toNat ∧ c.toNat ≤ 70 then some (c.toNat - 55)
  else none

/-- Value of the four hexadecimal digits of a `\u` escape. -/
def hexValue4 (a b c d : Char) : Option Nat :=
  match hexValue a, hexValue b, hexValue c, hexValue d with
  | some x, some y, some z, some t => some (((x * 16 + y) * 16 + z) * 16 + t)
  | _, _, _, _ => none

/-- The character a one-letter JSON escape stands for (RFC 8259, section 7). -/
def jsonUnescape (e : Char) : Option Char :=
  if e = '"' then some '"'
  else if e = '\\' then some '\\'
  else if e = '/' then some '/'
  else if e = 'b' then some (Char.ofNat 8)
  else if e = 'f' then some (Char.ofNat 12)
  else if e = 'n' then some (Char.ofNat 10)
  else if e = 'r' then some (Char.ofNat 13)
  else if e = 't' then some (Char.ofNat 9)
  else none

/-- A reader of JSON string literals (RFC 8259, section 7), started after the
opening quote: the text the literal denotes and the input after its closing
quote. An unescaped quote, backslash or control character, an unknown escape
and a `\u` escape of a surrogate are refused. -/
def readJSONChars : List Char → Option (List Char × List Char)
  | [] => none
  | c :: rest =>
    if c = '"' then some ([], rest)
    else if c = '\\' then
      match rest with
      | [] => none
      | e :: rest1 =>
        if e = 'u' then
          match rest1 with
          | h1 :: h2 :: h3 :: h4 :: rest2 =>
            match hexValue4 h1 h2 h3 h4 with
            | some n =>
              if 55296 ≤ n ∧ n ≤ 57343 then none
              else (readJSONChars rest2).map (fun x => (Char.ofNat n :: x.1, x.2))
            | none => none
          | _ => none
        else
          match jsonUnescape e with
          | some ch => (readJSONChars rest1).map (fun x => (ch :: x.1, x.2))
          | none => none
    else if c.toNat < 32 then none
    else (readJSONChars rest).map (fun x => (c :: x.1, x.2))

/-- A reader of the JSON texts that are an object with the single member
`url` holding a string, in compact form: the value of `url`, and `none` for
any other text. -/
def readURLObject (body : String) : Option String :=
  if "\x7b\"url\":\"".toList <+: body.toList then
    match readJSONChars (body.toList.drop 8) with
    | some (s, rest) => if rest = ['\x7d'] then some (String.mk s) else none
    | none => none
  else none

/-- The URL string a request carries for the callback: path, plus `?` and the
raw query when there is one. -/
def pathAndQuery (u : URL) : String :=
  if u.RawQuery = "" then u.Path else u.Path ++ "?" ++ u.RawQuery

/-- Two option values that differ at most in `Token`. -/
def sameExceptToken (o1 o2 : BlobsServerOptions) : Prop :=
  { o1 with Token := none } = { o2 with Token := none }

/-- Two servers that agree on every field except `tokenHash`. -/
def agreeExceptTokenHash (s1 s2 : BlobsServer) : Prop :=
  { s1 with tokenHash := "" } = { s2 with tokenHash := "" }

/-- Two servers that agree on every field except `token` and `tokenHash`. -/
def agreeExceptTokenAndHash (s1 s2 : BlobsServer) : Prop :=
  { s1 with token := none, tokenHash := "" } = { s2 with token := none, tokenHash := "" }

/-! ## A sample environment, for concrete runs -/

/-- A flat store: the paths that exist, each a regular file, and those whose
removal is denied. -/
structure SampleFS where
  paths : List String
  locked : List String
deriving DecidableEq, Repr

/-- Whether a file of the store lies on the way to `p`: some stored path
followed by `/` starts `p`. -/
def sampleNotDir (fs : SampleFS) (p : String) : Bool :=
  fs.paths.any (fun q => decide ((q.toList ++ ['/']) <+: p.toList))

def sampleRemoveAll (fs : SampleFS) (p : String) : SampleFS × Option FsError :=
  if sampleNotDir fs p = true then
    (fs, some { isNotExist := false, msg := "not a directory" })
  else if p ∈ fs.paths ∧ p ∈ fs.locked then
    (fs, some { isNotExist := false, msg := "permission denied" })
  else
    ({ fs with paths := fs.paths.filter (fun q => decide (q ≠ p)) }, none)

def sampleURLString (u : URL) : String :=
  (if u.Scheme = "" then "" else u.Scheme ++ "://" ++ u.Host) ++ pathAndQuery u

def sampleURLParse (s : String) : Except String URL :=
  .ok { Scheme := "", Host := ""
        Path := String.mk (s.toList.takeWhile (fun c => decide (c ≠ '?')))
        RawQuery := String.mk ((s.toList.dropWhile (fun c => decide (c ≠ '?'))).drop 1)
        Fragment := "" }

def sampleResolveReference (base ref : URL) : URL :=
  if ref.Scheme = "" then { ref with Scheme := base.Scheme, Host := base.Host } else ref

/-- A request parser for the current scheme: signed-URL mode is asked for by
the `Accept` header. -/
def sampleParseAPIRequest (_b : BlobsServer) (r : Request) : Option APIMatch :=
  match r.URL with
  | none => none
  | some u =>
    if matchString apiURLPath u.Path then
      some { UseSignedURL := r.Header.contains ("Accept", "application/json;type=signed-url")
             URL := some u }
    else none

def sampleGetLocalPaths (b : BlobsServer) (u : URL) : LocalPaths :=
  match currentAddress u.Path with
  | some (site, store, key) =>
    { DataPath := b.directory ++ "/entries/" ++ site ++ "/" ++ store ++ "/" ++ key
      Key := key
      MetadataPath := b.directory ++ "/metadata/" ++ site ++ "/" ++ store ++ "/" ++ key }
  | none => { DataPath := "", Key := "", MetadataPath := "" }

def sampleEnv : Env SampleFS :=
  { parseAPIRequest := sampleParseAPIRequest
    getLocalPaths := sampleGetLocalPaths
    urlString := sampleURLString
    urlParse := sampleURLParse
    resolveReference := sampleResolveReference
    removeAll := sampleRemoveAll }

/-- A stand-in for the keyed hash in concrete runs. -/
def sampleHmac (key msg : List UInt8) : List UInt8 :=
  key ++ msg

def sampleOptions (token : Option String) : BlobsServerOptions :=
  { Debug := none, Directory := "/tmp/x", Logger := none, OnRequest := some { id := 7 }
    Port := none, Token := token }

def sampleServer : BlobsServer :=
  NewBlobsServer sampleHmac [1, 2] [3, 4] (sampleOptions none)

def sampleURL (path : String) : URL :=
  { Scheme := "", Host := "", Path := path, RawQuery := "", Fragment := "" }

def sampleRequest (path : String) : Request :=
  { Method := "DELETE", Header := [], URL := some (sampleURL path) }

def sampleSignedRequest (path : String) : Request :=
  { Method := "DELETE", Header := [("Accept", "application/json;type=signed-url")]
    URL := some (sampleURL path) }

def sampleFS : SampleFS :=
  { paths := ["/tmp/x/entries/s/st/k", "/tmp/x/metadata/s/st/k"], locked := [] }

def sampleLockedFS : SampleFS :=
  { paths := ["/tmp/x/entries/s/st/k"], locked := ["/tmp/x/entries/s/st/k"] }

def sampleReleases : List RepositoryRelease :=
  [ { TagName := some "v2.0.0-rc1", Prerelease := some true, PublishedAt := some { instant := 30 } },
    { TagName := some "v1.1.0", Prerelease := some false, PublishedAt := some { instant := 20 } },
    { TagName := some "v1.0.0", Prerelease := none, PublishedAt := some { instant := 10 } } ]

/-! ## Lemmas on the matcher -/

theorem starRun_head (step : MState → List MState) (c : Char) (rest : List Char)
    (hcons : ∀ (x : Char) (xs : List Char) (cs : List (String × List Char)),
      x ≠ c → step (x :: xs, cs) = [(xs, cs)])
    (hstop : ∀ cs : List (String × List Char), step (rest, cs) = []) :
    ∀ (S : List Char) (n : Nat) (cs : List (String × List Char)),
      c ∉ S → S.length ≤ n →
      (starRun step n (S ++ rest, cs)).head? = some (rest, cs) := by
  intro S
  induction S with
  | nil =>
    intro n cs _ _
    cases n with
    | zero => simp [starRun]
    | succ m => simp [starRun, hstop]
  | cons x S ih =>
    intro n cs hc hn
    cases n with
    | zero => simp at hn
    | succ m =>
      have hx : x ≠ c := fun h => hc (by simp [h])
      have hS : c ∉ S := fun h => hc (by simp [h])
      have hm : S.length ≤ m := by simpa using hn
      have h := ih m cs hS hm
      cases hr : starRun step m (S ++ rest, cs) with
      | nil => rw [hr] at h; simp at h
      | cons y ys =>
        rw [hr] at h
        simp at h
        subst h
        simp [starRun, hcons x (S ++ rest) cs hx, hr]

theorem run_notClass_cons (c x : Char) (xs : List Char) (cs : List (String × List Char))
    (hx : x ≠ c) : run (.notClass c) (x :: xs, cs) = [(xs, cs)] := by
  simp [run, hx]

theorem run_notClass_stop (c : Char) (rest : List Char) (cs : List (String × List Char))
    (hrest : ∀ x ∈ rest.head?, x = c) : run (.notClass c) (rest, cs) = [] := by
  cases rest with
  | nil => simp [run]
  | cons y r =>
    have hy : y = c := hrest y (by simp)
    simp [run, hy]

theorem starRun_notClass_head (c : Char) (rest : List Char)
    (hrest : ∀ x ∈ rest.head?, x = c) (S : List Char) (n : Nat)
    (cs : List (String × List Char)) (hc : c ∉ S) (hn : S.length ≤ n) :
    (starRun (fun st1 => run (.notClass c) st1) n (S ++ rest, cs)).head? = some (rest, cs) :=
  starRun_head (fun st1 => run (.notClass c) st1) c rest
    (fun x xs cs1 hx => run_notClass_cons c x xs cs1 hx)
    (fun cs1 => run_notClass_stop c rest cs1 hrest) S n cs hc hn

theorem run_star_notClass_head (c : Char) (S rest : List Char)
    (cs : List (String × List Char)) (hc : c ∉ S) (hrest : ∀ x ∈ rest.head?, x = c) :
    (run (.star (.notClass c)) (S ++ rest, cs)).head? = some (rest, cs) := by
  simp only [run]
  exact starRun_notClass_head c rest hrest S _ cs hc (by simp)

theorem run_plus_notClass_head (c : Char) (S rest : List Char)
    (cs : List (String × List Char)) (hne : S ≠ []) (hc : c ∉ S)
    (hrest : ∀ x ∈ rest.head?, x = c) :
    (run (.plus (.notClass c)) (S ++ rest, cs)).head? = some (rest, cs) := by
  cases S with
  | nil => exact absurd rfl hne
  | cons x S =>
    have hx : x ≠ c := fun h => hc (by simp [h])
    have hS : c ∉ S := fun h => hc (by simp [h])
    have h := starRun_notClass_head c rest hrest S ((x :: S ++ rest).length) cs hS
      (by simp; omega)
    rw [List.cons_append] at h ⊢
    rw [run, run_notClass_cons c x (S ++ rest) cs hx]
    simpa using h

theorem run_str_head (p rest : List Char) (cs : List (String × List Char)) :
    (run (.str p) (p ++ rest, cs)).head? = some (rest, cs) := by
  simp [run]

theorem run_cat_head (a b : Regex) (st st1 st2 : MState)
    (ha : (run a st).head? = some st1) (hb : (run b st1).head? = some st2) :
    (run (.cat a b) st).head? = some st2 := by
  cases hra : run a st with
  | nil => rw [hra] at ha; simp at ha
  | cons y ys =>
    rw [hra] at ha
    simp at ha
    subst ha
    cases hrb : run b y with
    | nil => rw [hrb] at hb; simp at hb
    | cons z zs =>
      rw [hrb] at hb
      simp at hb
      subst hb
      simp [run, hra, hrb]

theorem run_quest_head (a : Regex) (st st1 : MState)
    (ha : (run a st).head? = some st1) :
    (run (.quest a) st).head? = some st1 := by
  cases hra : run a st with
  | nil => rw [hra] at ha; simp at ha
  | cons y ys =>
    rw [hra] at ha
    simp at ha
    subst ha
    simp [run, hra]

theorem run_group_head (name : String) (a : Regex) (st st1 : MState)
    (ha : (run a st).head? = some st1) :
    (run (.group name a) st).head? =
      some (st1.1, st1.2 ++ [(name, st.1.take (st.1.length - st1.1.length))]) := by
  cases hra : run a st with
  | nil => rw [hra] at ha; simp at ha
  | cons y ys =>
    rw [hra] at ha
    simp at ha
    subst ha
    simp [run, hra]

theorem findFrom_of_matchAt (re : Regex) (off : Nat) (s : List Char)
    (g : List (String × List Char)) (h : matchAt re s = some g) :
    findFrom re off s = some (off, g) := by
  cases s with
  | nil => simp [findFrom, h]
  | cons c s => simp [findFrom, h]

theorem findFrom_some (re : Regex) :
    ∀ (s : List Char) (off i : Nat) (g : List (String × List Char)),
      findFrom re off s = some (i, g) →
      ∃ k, i = off + k ∧ matchAt re (s.drop k) = some g := by
  intro s
  induction s with
  | nil =>
    intro off i g h
    cases hm : matchAt re [] with
    | none => simp [findFrom, hm] at h
    | some g1 =>
      simp [findFrom, hm] at h
      exact ⟨0, by omega, by simpa [hm] using h.2⟩
  | cons c s ih =>
    intro off i g h
    cases hm : matchAt re (c :: s) with
    | none =>
      simp only [findFrom, hm] at h
      obtain ⟨k, hk, hg⟩ := ih (off + 1) i g h
      exact ⟨k + 1, by omega, by simpa using hg⟩
    | some g1 =>
      simp [findFrom, hm] at h
      exact ⟨0, by omega, by simpa [hm] using h.2⟩

theorem matchAt_cat_str (p : List Char) (r : Regex) (s : List Char)
    (g : List (String × List Char)) (h : matchAt (.cat (.str p) r) s = some g) :
    s.take p.length = p := by
  by_cases hp : p <+: s
  · obtain ⟨t, rfl⟩ := hp
    simp
  · simp [matchAt, run, hp] at h


theorem group_take (S rest : List Char) :
    (S ++ rest).take ((S ++ rest).length - rest.length) = S := by
  simp

theorem matchAt_legacy (S K : List Char) (hS : S ≠ []) (h1 : '/' ∉ S) (h2 : '?' ∉ K) :
    matchAt legacyAPIURLPath ("/api/v1/sites/".toList ++ (S ++ ("/blobs/".toList ++ K))) =
      some [("site_id", S), ("key", K)] := by
  have e1 : ("/blobs/".toList ++ K) = "/blobs".toList ++ ("/".toList ++ K) := rfl
  have a1 := run_str_head "/api/v1/sites/".toList (S ++ ("/blobs/".toList ++ K)) []
  have a2 := run_group_head "site_id" _ _ _
    (run_plus_notClass_head '/' S ("/blobs/".toList ++ K) [] hS h1 (by simp [e1]))
  rw [group_take] at a2
  have a3 := run_str_head "/blobs".toList ("/".toList ++ K) ([] ++ [("site_id", S)])
  rw [← e1] at a3
  have a4 := run_quest_head _ _ _ (run_str_head "/".toList K ([] ++ [("site_id", S)]))
  have a5 := run_group_head "key" _ _ _
    (run_star_notClass_head '?' K [] ([] ++ [("site_id", S)]) h2 (by simp))
  rw [group_take, List.append_nil] at a5
  have h := run_cat_head _ _ _ _ _ a1 (run_cat_head _ _ _ _ _ a2
    (run_cat_head _ _ _ _ _ a3 (run_cat_head _ _ _ _ _ a4 a5)))
  simp only [matchAt, legacyAPIURLPath]
  rw [h]
  rfl

theorem matchAt_api (S T K : List Char) (hS : S ≠ []) (h1 : '/' ∉ S)
    (hT : T ≠ []) (h3 : '/' ∉ T) (h2 : '?' ∉ K) :
    matchAt apiURLPath
        ("/api/v1/blobs/".toList ++ (S ++ ("/".toList ++ (T ++ ("/".toList ++ K))))) =
      some [("site_id", S), ("store_name", T), ("key", K)] := by
  have a1 := run_str_head "/api/v1/blobs/".toList
    (S ++ ("/".toList ++ (T ++ ("/".toList ++ K)))) []
  have a2 := run_group_head "site_id" _ _ _
    (run_plus_notClass_head '/' S ("/".toList ++ (T ++ ("/".toList ++ K))) [] hS h1
      (by intro x hx; simpa using hx.symm))
  rw [group_take] at a2
  have a3 := run_str_head "/".toList (T ++ ("/".toList ++ K)) ([] ++ [("site_id", S)])
  have a4 := run_group_head "store_name" _ _ _
    (run_plus_notClass_head '/' T ("/".toList ++ K) ([] ++ [("site_id", S)]) hT h3
      (by intro x hx; simpa using hx.symm))
  rw [group_take] at a4
  have a5 := run_quest_head _ _ _
    (run_str_head "/".toList K ([] ++ [("site_id", S)] ++ [("store_name", T)]))
  have a6 := run_group_head "key" _ _ _
    (run_star_notClass_head '?' K [] ([] ++ [("site_id", S)] ++ [("store_name", T)]) h2
      (by simp))
  rw [group_take, List.append_nil] at a6
  have h := run_cat_head _ _ _ _ _ a1 (run_cat_head _ _ _ _ _ a2
    (run_cat_head _ _ _ _ _ a3 (run_cat_head _ _ _ _ _ a4 (run_cat_head _ _ _ _ _ a5 a6))))
  simp only [matchAt, apiURLPath]
  rw [h]
  rfl

/-! ## URL patterns: theorems -/

/-- C7, as stated, fails: the path `/api/v1/blobs/api/v1/sites/x/blobs` is
matched by both patterns (by `apiURLPath` at offset 0 and, the patterns being
unanchored, by `legacyAPIURLPath` at offset 13). -/
theorem patterns_both_match :
    matchString apiURLPath "/api/v1/blobs/api/v1/sites/x/blobs" = true ∧
    matchString legacyAPIURLPath "/api/v1/blobs/api/v1/sites/x/blobs" = true := by
  decide

/-- C7, amended: the two patterns never match at the same position of a
path: whenever both find a match in a path, the two matches start at
different offsets (so at most one of them matches at the start of the path). -/
theorem patterns_exclusive_at_offset (path : String) (i j : Nat)
    (g1 g2 : List (String × List Char))
    (h1 : find apiURLPath path = some (i, g1))
    (h2 : find legacyAPIURLPath path = some (j, g2)) : i ≠ j := by
  intro hij
  subst hij
  obtain ⟨k1, hk1, m1⟩ := findFrom_some _ _ _ _ _ h1
  obtain ⟨k2, hk2, m2⟩ := findFrom_some _ _ _ _ _ h2
  have hk : k2 = k1 := by omega
  subst hk
  have t1 := matchAt_cat_str _ _ _ _ m1
  have t2 := matchAt_cat_str _ _ _ _ m2
  have hlen : "/api/v1/blobs/".toList.length = "/api/v1/sites/".toList.length := by decide
  rw [hlen, t2] at t1
  exact absurd t1 (by decide)

theorem patterns_exclusive_at_offset_witness :
    find apiURLPath "/api/v1/blobs/api/v1/sites/x/blobs" =
        some (0, [("site_id", "api".toList), ("store_name", "v1".toList),
          ("key", "sites/x/blobs".toList)]) ∧
    find legacyAPIURLPath "/api/v1/blobs/api/v1/sites/x/blobs" =
        some (13, [("site_id", "x".toList), ("key", [])]) ∧
    (0 : Nat) ≠ 13 :=
  ⟨by decide, by decide,
    patterns_exclusive_at_offset "/api/v1/blobs/api/v1/sites/x/blobs" 0 13
      [("site_id", "api".toList), ("store_name", "v1".toList), ("key", "sites/x/blobs".toList)]
      [("site_id", "x".toList), ("key", [])] (by decide) (by decide)⟩

/-- C8: for a non-empty site id `S` without `/` and a key `K` without `?`,
the legacy path `/api/v1/sites/S/blobs/K` (store name defaulted to
`legacyDefaultStore`) and the current path `/api/v1/blobs/S/production/K`
resolve to the same triple `(S, "production", K)`. -/
theorem scheme_equivalence (S K : String) (hS : S ≠ "") (h1 : '/' ∉ S.toList)
    (h2 : '?' ∉ K.toList) :
    legacyAddress ("/api/v1/sites/" ++ S ++ "/blobs/" ++ K) = some (S, "production", K) ∧
    currentAddress ("/api/v1/blobs/" ++ S ++ "/production/" ++ K) =
      some (S, "production", K) := by
  have hS1 : S.toList ≠ [] := by
    intro h
    apply hS
    cases S
    simp_all [String.toList]
  constructor
  · have hm := matchAt_legacy S.toList K.toList hS1 h1 h2
    have hp : ("/api/v1/sites/" ++ S ++ "/blobs/" ++ K).toList =
        "/api/v1/sites/".toList ++ (S.toList ++ ("/blobs/".toList ++ K.toList)) := by
      simp [String.toList]
    simp only [legacyAddress, find, hp, findFrom_of_matchAt _ 0 _ _ hm, Option.map_some]
    simp [groupText, legacyDefaultStore, String.toList]
  · have hm := matchAt_api S.toList "production".toList K.toList hS1 h1 (by decide)
      (by decide) h2
    have hp : ("/api/v1/blobs/" ++ S ++ "/production/" ++ K).toList =
        "/api/v1/blobs/".toList ++
          (S.toList ++ ("/".toList ++ ("production".toList ++ ("/".toList ++ K.toList)))) := by
      simp [String.toList]
    simp only [currentAddress, find, hp, findFrom_of_matchAt _ 0 _ _ hm, Option.map_some]
    simp [groupText, String.toList]

theorem scheme_equivalence_witness :
    legacyAddress ("/api/v1/sites/" ++ "s1" ++ "/blobs/" ++ "a/b") =
        some ("s1", "production", "a/b") ∧
    currentAddress ("/api/v1/blobs/" ++ "s1" ++ "/production/" ++ "a/b") =
        some ("s1", "production", "a/b") :=
  scheme_equivalence "s1" "a/b" (by decide) (by decide) (by decide)

/-! ## Lemmas on `Delete` -/

theorem parse_of_not_signed {FS : Type} (E : Env FS) (b : BlobsServer) (r : Request)
    (hmode : signedURLMode E b r = false) :
    E.parseAPIRequest b r = none ∨
      ∃ u, E.parseAPIRequest b r = some { UseSignedURL := false, URL := u } := by
  unfold signedURLMode at hmode
  cases hp : E.parseAPIRequest b r with
  | none => exact Or.inl rfl
  | some m =>
    rw [hp] at hmode
    obtain ⟨s, u⟩ := m
    simp at hmode
    subst hmode
    exact Or.inr ⟨u, rfl⟩

/-- The direct (not signed-URL) path of `Delete`, once both URLs parse. -/
theorem Delete_direct {FS : Type} (E : Env FS) (b : BlobsServer) (r : Request) (w : World FS)
    (a u : URL) (lp : LocalPaths)
    (hmode : signedURLMode E b r = false)
    (ha : E.urlParse b.address = .ok a)
    (hu : E.urlParse (deleteRawURL E (E.parseAPIRequest b r) r) = .ok u)
    (hlp : E.getLocalPaths b (E.resolveReference a u) = lp) :
    Delete E b r w =
      if lp.DataPath = "" ∨ lp.Key = "" then .ok (w, { status := 400, body := none })
      else
        .ok ({ w with fs := (E.removeAll (E.removeAll w.fs lp.MetadataPath).1 lp.DataPath).1 },
          { status :=
              if isFault (E.removeAll (E.removeAll w.fs lp.MetadataPath).1 lp.DataPath).2
              then 500 else 204
            body := none }) := by
  rcases parse_of_not_signed E b r hmode with hp | ⟨v, hp⟩
  all_goals
    rw [hp] at hu
    simp only [Delete, hp, ha, hu, hlp, sendResponse]
    by_cases hbad : lp.DataPath = "" ∨ lp.Key = ""
    · simp only [hbad, if_true]
    · simp only [hbad, if_false]
      cases hres : (E.removeAll (E.removeAll w.fs lp.MetadataPath).1 lp.DataPath).2 with
      | none => simp [isFault]
      | some e =>
        cases he : e.isNotExist <;> simp [isFault, he]

theorem Delete_signed {FS : Type} (E : Env FS) (b : BlobsServer) (r : Request) (w : World FS)
    (m : APIMatch) (u : URL) (hm : E.parseAPIRequest b r = some m)
    (hs : m.UseSignedURL = true) (hu : m.URL = some u) :
    Delete E b r w = .ok (w, { status := 200, body := some (jsonMarshalURL (E.urlString u)) }) := by
  obtain ⟨s, v⟩ := m
  simp only at hs hu
  subst hs
  subst hu
  simp only [Delete, hm, sendResponse]

theorem Delete_calls {FS : Type} (E : Env FS) (b : BlobsServer) (r : Request)
    (w w1 : World FS) (resp : Response) (h : Delete E b r w = .ok (w1, resp)) :
    w1.calls = w.calls := by
  cases hp : E.parseAPIRequest b r with
  | none =>
    simp only [Delete, hp] at h
    split at h
    · cases h
    · split at h
      · cases h
      · split at h
        · cases h; rfl
        · split at h
          · split at h <;> · cases h; rfl
          · cases h; rfl
  | some m =>
    obtain ⟨s, v⟩ := m
    cases s with
    | true =>
      cases v with
      | none => simp [Delete, hp] at h
      | some u =>
        simp only [Delete, hp] at h
        cases h; rfl
    | false =>
      simp only [Delete, hp] at h
      split at h
      · cases h
      · split at h
        · cases h
        · split at h
          · cases h; rfl
          · split at h
            · split at h <;> · cases h; rfl
            · cases h; rfl

theorem dispatch_url {b : BlobsServer} {f : FuncRef} (hf : b.onRequest = some f)
    (T : Operation) (u : URL) (calls : List Call) :
    dispatchOnRequestEvent b T (.url (some u)) calls =
      .ok (calls ++ [{ fn := f, arg := { Type_ := T, URL := pathAndQuery u } }]) := by
  by_cases hq : u.RawQuery = ""
  · simp [dispatchOnRequestEvent, hf, pathAndQuery, hq]
  · simp [dispatchOnRequestEvent, hf, pathAndQuery, hq, String.append_assoc]

theorem sampleRemoveAll_noFault (fs : SampleFS) (p : String) :
    isFault (sampleRemoveAll fs p).2 = false ↔
      sampleNotDir fs p = false ∧ ¬ (p ∈ fs.paths ∧ p ∈ fs.locked) := by
  unfold sampleRemoveAll
  split_ifs with h1 h2
  · simp [isFault, h1]
  · simp [isFault, h1, h2]
  · simp [isFault, h1, h2]

theorem sampleRemoveAll_after (fs : SampleFS) (q : String) :
    (∀ x ∈ (sampleRemoveAll fs q).1.paths, x ∈ fs.paths) ∧
      (sampleRemoveAll fs q).1.locked = fs.locked := by
  unfold sampleRemoveAll
  split_ifs with h1 h2
  · exact ⟨fun x hx => hx, rfl⟩
  · exact ⟨fun x hx => hx, rfl⟩
  · exact ⟨fun x hx => (List.mem_filter.mp hx).1, rfl⟩

theorem sampleEnv_contract : RemoveAllContract sampleEnv := by
  constructor
  intro fs p q h
  obtain ⟨hdir, hlock⟩ := (sampleRemoveAll_noFault fs p).mp h
  obtain ⟨hsub, hl⟩ := sampleRemoveAll_after fs q
  refine (sampleRemoveAll_noFault (sampleRemoveAll fs q).1 p).mpr ⟨?_, ?_⟩
  · cases hd : sampleNotDir (sampleRemoveAll fs q).1 p with
    | false => rfl
    | true =>
      obtain ⟨x, hx, hpre⟩ := List.any_eq_true.mp hd
      have : sampleNotDir fs p = true := List.any_eq_true.mpr ⟨x, hsub x hx, hpre⟩
      rw [hdir] at this
      exact absurd this (by decide)
  · rintro ⟨h1, h2⟩
    exact hlock ⟨hsub p h1, by rw [← hl]; exact h2⟩

/-- In the sample store the removal of an absent path can fault: with the key
`k` stored as a file, deleting the absent key `k/x` is answered 500. -/
theorem sample_absent_key_fault :
    Delete sampleEnv sampleServer (sampleRequest "/api/v1/blobs/s/st/k/x")
        { fs := sampleFS, calls := [] } =
      .ok ({ fs := sampleFS, calls := [] }, { status := 500, body := none }) :=
  rfl

/-! ## Lemmas on the JSON encoding -/

theorem hexValue_hexDigit (k : Nat) (hk : k < 16) : hexValue (hexDigit k) = some k := by
  interval_cases k <;> rfl

theorem hexValue4_byte (n : Nat) (hn : n < 256) :
    hexValue4 '0' '0' (hexDigit (n / 16)) (hexDigit (n % 16)) = some n := by
  have h0 : hexValue '0' = some 0 := rfl
  have h1 := hexValue_hexDigit (n / 16) (by omega)
  have h2 := hexValue_hexDigit (n % 16) (by omega)
  simp only [hexValue4, h0, h1, h2]
  congr 1
  omega

theorem readJSONChars_u (h1 h2 h3 h4 : Char) (tail : List Char) (n : Nat)
    (hn : hexValue4 h1 h2 h3 h4 = some n) (hs : ¬ (55296 ≤ n ∧ n ≤ 57343)) :
    readJSONChars ('\\' :: 'u' :: h1 :: h2 :: h3 :: h4 :: tail) =
      (readJSONChars tail).map (fun x => (Char.ofNat n :: x.1, x.2)) := by
  rw [readJSONChars.eq_def]
  simp [hn, hs]

theorem readJSONChars_esc (e ch : Char) (tail : List Char) (he : e ≠ 'u')
    (hu : jsonUnescape e = some ch) :
    readJSONChars ('\\' :: e :: tail) =
      (readJSONChars tail).map (fun x => (ch :: x.1, x.2)) := by
  rw [readJSONChars.eq_def]
  simp only [he, hu, if_false]
  simp

theorem readJSONChars_plain (c : Char) (tail : List Char) (h1 : c ≠ '"') (h2 : c ≠ '\\')
    (h3 : ¬ c.toNat < 32) :
    readJSONChars (c :: tail) = (readJSONChars tail).map (fun x => (c :: x.1, x.2)) := by
  rw [readJSONChars.eq_def]
  simp [h1, h2, h3]

theorem char_of_toNat (c : Char) (k : Nat) (h : c.toNat = k) : c = Char.ofNat k := by
  rw [← h, Char.ofNat_toNat]

/-- Reading back the encoding of one character gives the character. -/
theorem readJSONChars_escape (c : Char) (tail : List Char) :
    readJSONChars (jsonEscapeChar c ++ tail) =
      (readJSONChars tail).map (fun x => (c :: x.1, x.2)) := by
  unfold jsonEscapeChar
  split_ifs with q1 q2 q3 q4 q5 q6 q7 q8
  · rcases q1 with rfl | rfl
    · exact readJSONChars_esc '"' '"' tail (by decide) rfl
    · exact readJSONChars_esc '\\' '\\' tail (by decide) rfl
  · rw [char_of_toNat c 8 q2]
    exact readJSONChars_esc 'b' _ tail (by decide) rfl
  · rw [char_of_toNat c 12 q3]
    exact readJSONChars_esc 'f' _ tail (by decide) rfl
  · rw [char_of_toNat c 10 q4]
    exact readJSONChars_esc 'n' _ tail (by decide) rfl
  · rw [char_of_toNat c 13 q5]
    exact readJSONChars_esc 'r' _ tail (by decide) rfl
  · rw [char_of_toNat c 9 q6]
    exact readJSONChars_esc 't' _ tail (by decide) rfl
  · have hn : c.toNat < 256 := by
      rcases q7 with h | rfl | rfl | rfl
      · omega
      · decide
      · decide
      · decide
    have h := readJSONChars_u '0' '0' (hexDigit (c.toNat / 16)) (hexDigit (c.toNat % 16)) tail
      c.toNat (hexValue4_byte c.toNat hn) (by omega)
    rw [Char.ofNat_toNat] at h
    exact h
  · have h : hexValue4 '2' '0' '2' (hexDigit (c.toNat % 16)) = some c.toNat := by
      rcases q8 with h | h <;> rw [h] <;> rfl
    have h2 := readJSONChars_u '2' '0' '2' (hexDigit (c.toNat % 16)) tail c.toNat h (by omega)
    rw [Char.ofNat_toNat] at h2
    exact h2
  · have h1 : c ≠ '"' := fun h => q1 (Or.inl h)
    have h2 : c ≠ '\\' := fun h => q1 (Or.inr h)
    have h3 : ¬ c.toNat < 32 := fun h => q7 (Or.inl h)
    exact readJSONChars_plain c tail h1 h2 h3

theorem readJSONChars_string (s rest : List Char) :
    readJSONChars (s.flatMap jsonEscapeChar ++ '"' :: rest) = some (s, rest) := by
  induction s with
  | nil =>
    rw [List.flatMap_nil, List.nil_append, readJSONChars.eq_def]
    simp
  | cons c s ih =>
    rw [List.flatMap_cons, List.append_assoc, readJSONChars_escape, ih]
    rfl

/-- The marshalled object reads back, as JSON, to the string it was made of. -/
theorem readURLObject_marshal (url : String) :
    readURLObject (jsonMarshalURL url) = some url := by
  have hl : (jsonMarshalURL url).toList =
      "\x7b\"url\":\"".toList ++ (url.toList.flatMap jsonEscapeChar ++ '"' :: ['\x7d']) := by
    simp [jsonMarshalURL, jsonString, String.toList]
  unfold readURLObject
  rw [hl]
  have hp : "\x7b\"url\":\"".toList <+:
      "\x7b\"url\":\"".toList ++ (url.toList.flatMap jsonEscapeChar ++ '"' :: ['\x7d']) :=
    List.prefix_append _ _
  rw [if_pos hp]
  have hd : ("\x7b\"url\":\"".toList ++
      (url.toList.flatMap jsonEscapeChar ++ '"' :: ['\x7d'])).drop 8 =
      url.toList.flatMap jsonEscapeChar ++ '"' :: ['\x7d'] := by
    rw [List.drop_append_of_le_length (by decide)]
    rfl
  rw [hd, readJSONChars_string]
  simp [String.toList]

/-! ## The delete operation: theorems -/

/-- C1: a direct (not signed-URL) Delete request whose local paths have a
non-empty data path and key is answered 500 exactly when removing the content
path returns an error other than "does not exist", and 204 otherwise; the
error returned by the removal of the metadata sidecar, done first, is not
looked at. -/
theorem delete_status {FS : Type} (E : Env FS) (b : BlobsServer) (r : Request) (w : World FS)
    (a u : URL) (lp : LocalPaths)
    (hmode : signedURLMode E b r = false)
    (ha : E.urlParse b.address = .ok a)
    (hu : E.urlParse (deleteRawURL E (E.parseAPIRequest b r) r) = .ok u)
    (hlp : E.getLocalPaths b (E.resolveReference a u) = lp)
    (hd : lp.DataPath ≠ "") (hk : lp.Key ≠ "") :
    ∃ status : Nat,
      Delete E b r w =
        .ok ({ w with fs := (E.removeAll (E.removeAll w.fs lp.MetadataPath).1 lp.DataPath).1 },
          { status := status, body := none }) ∧
      (status = 500 ↔
        ∃ e, (E.removeAll (E.removeAll w.fs lp.MetadataPath).1 lp.DataPath).2 = some e ∧
          e.isNotExist = false) ∧
      (status ≠ 500 → status = 204) := by
  have h := Delete_direct E b r w a u lp hmode ha hu hlp
  have hbad : ¬ (lp.DataPath = "" ∨ lp.Key = "") := by
    rintro (h1 | h1)
    · exact hd h1
    · exact hk h1
  rw [if_neg hbad] at h
  refine ⟨_, h, ?_, ?_⟩
  · cases hres : (E.removeAll (E.removeAll w.fs lp.MetadataPath).1 lp.DataPath).2 with
    | none => simp [isFault]
    | some e => cases he : e.isNotExist <;> simp [isFault, he]
  · intro hne
    split at hne
    · exact absurd rfl hne
    · simp_all

theorem delete_status_witness :
    (∃ status : Nat,
      Delete sampleEnv sampleServer (sampleRequest "/api/v1/blobs/s/st/k")
          { fs := sampleLockedFS, calls := [] } =
        .ok ({ fs := sampleLockedFS, calls := [] }, { status := status, body := none }) ∧
      (status = 500 ↔
        ∃ e, (sampleRemoveAll sampleLockedFS "/tmp/x/entries/s/st/k").2 = some e ∧
          e.isNotExist = false) ∧
      (status ≠ 500 → status = 204)) ∧
    Delete sampleEnv sampleServer (sampleRequest "/api/v1/blobs/s/st/k")
        { fs := sampleLockedFS, calls := [] } =
      .ok ({ fs := sampleLockedFS, calls := [] }, { status := 500, body := none }) :=
  ⟨delete_status sampleEnv sampleServer (sampleRequest "/api/v1/blobs/s/st/k")
      { fs := sampleLockedFS, calls := [] } (sampleURL "")
      (sampleURL "/api/v1/blobs/s/st/k")
      { DataPath := "/tmp/x/entries/s/st/k", Key := "k",
        MetadataPath := "/tmp/x/metadata/s/st/k" }
      rfl rfl rfl rfl (by decide) (by decide),
    rfl⟩

/-- C2: Delete is idempotent. For a direct request with a non-empty data
path and key, on every filesystem state on which removing the content does not
fault, Delete answers 204, whether the content path is present in that state or
absent from it; and, removals bringing no fault about, a second Delete of the
same key on the resulting state answers 204 as well, never 500. -/
theorem delete_idempotent {FS : Type} (E : Env FS) (hc : RemoveAllContract E)
    (b : BlobsServer) (r : Request) (w : World FS) (a u : URL) (lp : LocalPaths)
    (hmode : signedURLMode E b r = false)
    (ha : E.urlParse b.address = .ok a)
    (hu : E.urlParse (deleteRawURL E (E.parseAPIRequest b r) r) = .ok u)
    (hlp : E.getLocalPaths b (E.resolveReference a u) = lp)
    (hd : lp.DataPath ≠ "") (hk : lp.Key ≠ "")
    (hnf : isFault (E.removeAll (E.removeAll w.fs lp.MetadataPath).1 lp.DataPath).2 = false) :
    Delete E b r w =
      .ok ({ w with fs := (E.removeAll (E.removeAll w.fs lp.MetadataPath).1 lp.DataPath).1 },
        { status := 204, body := none }) ∧
    ∃ w2 : World FS,
      Delete E b r
          { w with fs := (E.removeAll (E.removeAll w.fs lp.MetadataPath).1 lp.DataPath).1 } =
        .ok (w2, { status := 204, body := none }) := by
  have hbad : ¬ (lp.DataPath = "" ∨ lp.Key = "") := by
    rintro (h1 | h1)
    · exact hd h1
    · exact hk h1
  have hagain : isFault (E.removeAll (E.removeAll
      (E.removeAll (E.removeAll w.fs lp.MetadataPath).1 lp.DataPath).1
      lp.MetadataPath).1 lp.DataPath).2 = false :=
    hc.keeps_fault_free _ lp.DataPath lp.MetadataPath
      (hc.keeps_fault_free _ lp.DataPath lp.DataPath hnf)
  have h1 := Delete_direct E b r w a u lp hmode ha hu hlp
  rw [if_neg hbad, hnf] at h1
  have h2 := Delete_direct E b r
    { w with fs := (E.removeAll (E.removeAll w.fs lp.MetadataPath).1 lp.DataPath).1 }
    a u lp hmode ha hu hlp
  rw [if_neg hbad, hagain] at h2
  exact ⟨h1, _, h2⟩

theorem delete_idempotent_witness :
    Delete sampleEnv sampleServer (sampleRequest "/api/v1/blobs/s/st/k")
        { fs := sampleFS, calls := [] } =
      .ok ({ fs := { paths := [], locked := [] }, calls := [] },
        { status := 204, body := none }) ∧
    ∃ w2 : World SampleFS,
      Delete sampleEnv sampleServer (sampleRequest "/api/v1/blobs/s/st/k")
          { fs := { paths := [], locked := [] }, calls := [] } =
        .ok (w2, { status := 204, body := none }) :=
  delete_idempotent sampleEnv sampleEnv_contract sampleServer
    (sampleRequest "/api/v1/blobs/s/st/k") { fs := sampleFS, calls := [] } (sampleURL "")
    (sampleURL "/api/v1/blobs/s/st/k")
    { DataPath := "/tmp/x/entries/s/st/k", Key := "k",
      MetadataPath := "/tmp/x/metadata/s/st/k" }
    rfl rfl rfl rfl (by decide) (by decide) rfl

/-- C3: a direct Delete request whose local paths have an empty data path or
an empty key is answered 400, and the world after the call (filesystem
included) is the world before it. -/
theorem delete_bad_request {FS : Type} (E : Env FS) (b : BlobsServer) (r : Request)
    (w : World FS) (a u : URL) (lp : LocalPaths)
    (hmode : signedURLMode E b r = false)
    (ha : E.urlParse b.address = .ok a)
    (hu : E.urlParse (deleteRawURL E (E.parseAPIRequest b r) r) = .ok u)
    (hlp : E.getLocalPaths b (E.resolveReference a u) = lp)
    (hbad : lp.DataPath = "" ∨ lp.Key = "") :
    Delete E b r w = .ok (w, { status := 400, body := none }) := by
  have h := Delete_direct E b r w a u lp hmode ha hu hlp
  rw [if_pos hbad] at h
  exact h

theorem delete_bad_request_witness :
    Delete sampleEnv sampleServer (sampleRequest "/api/v1/blobs/s/st")
        { fs := sampleFS, calls := [] } =
      .ok ({ fs := sampleFS, calls := [] }, { status := 400, body := none }) :=
  delete_bad_request sampleEnv sampleServer (sampleRequest "/api/v1/blobs/s/st")
    { fs := sampleFS, calls := [] } (sampleURL "") (sampleURL "/api/v1/blobs/s/st")
    { DataPath := "/tmp/x/entries/s/st/", Key := "", MetadataPath := "/tmp/x/metadata/s/st/" }
    rfl rfl rfl rfl (Or.inr rfl)

/-- C4: a Delete request that the request parser marks as signed-URL mode
(and for which it gives a URL) leaves the world unchanged and is answered 200
with a body that is JSON text: the object whose single member `url` is the
string form of the parsed URL, written by `json.Marshal` and read back to that
string by a JSON reader. -/
theorem delete_signed_url {FS : Type} (E : Env FS) (b : BlobsServer) (r : Request)
    (w : World FS) (m : APIMatch) (u : URL)
    (hm : E.parseAPIRequest b r = some m) (hs : m.UseSignedURL = true)
    (hu : m.URL = some u) :
    Delete E b r w =
      .ok (w, { status := 200
                body := some ("\x7b\"url\":" ++ jsonString (E.urlString u) ++ "\x7d") }) ∧
    readURLObject ("\x7b\"url\":" ++ jsonString (E.urlString u) ++ "\x7d") =
      some (E.urlString u) :=
  ⟨Delete_signed E b r w m u hm hs hu, readURLObject_marshal (E.urlString u)⟩

theorem delete_signed_url_witness :
    Delete sampleEnv sampleServer
        { Method := "DELETE", Header := [("Accept", "application/json;type=signed-url")]
          URL := some { Scheme := "", Host := "", Path := "/api/v1/blobs/s/st/k"
                        RawQuery := "a=\"1\"&b=2", Fragment := "" } }
        { fs := sampleFS, calls := [] } =
      .ok ({ fs := sampleFS, calls := [] },
        { status := 200
          body := some
            "\x7b\"url\":\"/api/v1/blobs/s/st/k?a=\\\"1\\\"\\u0026b=2\"\x7d" }) ∧
    readURLObject "\x7b\"url\":\"/api/v1/blobs/s/st/k?a=\\\"1\\\"\\u0026b=2\"\x7d" =
      some "/api/v1/blobs/s/st/k?a=\"1\"&b=2" :=
  delete_signed_url sampleEnv sampleServer
    { Method := "DELETE", Header := [("Accept", "application/json;type=signed-url")]
      URL := some { Scheme := "", Host := "", Path := "/api/v1/blobs/s/st/k"
                    RawQuery := "a=\"1\"&b=2", Fragment := "" } }
    { fs := sampleFS, calls := [] }
    { UseSignedURL := true
      URL := some { Scheme := "", Host := "", Path := "/api/v1/blobs/s/st/k"
                    RawQuery := "a=\"1\"&b=2", Fragment := "" } }
    { Scheme := "", Host := "", Path := "/api/v1/blobs/s/st/k"
      RawQuery := "a=\"1\"&b=2", Fragment := "" } rfl rfl rfl

/-! ## The observability callback: theorems -/

/-- C5, as stated, fails: on a server with a non-nil `OnRequest`, a direct
Delete that ends in 204 leaves the invocation log empty (no invocation, not
one). -/
theorem delete_invokes_nothing :
    sampleServer.onRequest = some { id := 7 } ∧
    signedURLMode sampleEnv sampleServer (sampleRequest "/api/v1/blobs/s/st/k") = false ∧
    Delete sampleEnv sampleServer (sampleRequest "/api/v1/blobs/s/st/k")
        { fs := sampleFS, calls := [] } =
      .ok ({ fs := { paths := [], locked := [] }, calls := [] },
        { status := 204, body := none }) :=
  ⟨rfl, rfl, rfl⟩

/-- C5, amended: `Delete` itself never invokes `OnRequest`: whatever response
it writes, the invocation log after `Delete` is the log before it. On a server
with a non-nil `OnRequest` the one invocation of a delete operation, with
`Type = "delete"` and `URL` = the request's path plus query, is the one made by
`dispatchOnRequestEvent(OperationDelete, r.URL)` when the caller runs it next
to `Delete`. -/
theorem delete_dispatch_once {FS : Type} (E : Env FS) (b : BlobsServer) (r : Request)
    (w w1 : World FS) (resp : Response) (f : FuncRef) (u : URL)
    (hf : b.onRequest = some f) (hu : r.URL = some u)
    (hdel : Delete E b r w = .ok (w1, resp)) :
    w1.calls = w.calls ∧
    dispatchOnRequestEvent b OperationDelete (.url r.URL) w1.calls =
      .ok (w.calls ++ [{ fn := f, arg := { Type_ := "delete", URL := pathAndQuery u } }]) := by
  have hc := Delete_calls E b r w w1 resp hdel
  refine ⟨hc, ?_⟩
  rw [hu, hc]
  exact dispatch_url hf OperationDelete u w.calls

theorem delete_dispatch_once_witness :
    ({ fs := { paths := [], locked := [] }, calls := [] } : World SampleFS).calls = [] ∧
    dispatchOnRequestEvent sampleServer OperationDelete
        (.url (sampleRequest "/api/v1/blobs/s/st/k").URL) [] =
      .ok ([] ++ [{ fn := { id := 7 }
                    arg := { Type_ := "delete"
                             URL := pathAndQuery (sampleURL "/api/v1/blobs/s/st/k") } }]) :=
  delete_dispatch_once sampleEnv sampleServer (sampleRequest "/api/v1/blobs/s/st/k")
    { fs := sampleFS, calls := [] } { fs := { paths := [], locked := [] }, calls := [] }
    { status := 204, body := none } { id := 7 } (sampleURL "/api/v1/blobs/s/st/k")
    rfl rfl rfl

/-- C9: on a server with a non-nil `OnRequest`, `dispatchOnRequestEvent` adds
exactly one invocation, with `Type = T` and `URL = P` when the raw query `Q` is
empty and `P ++ "?" ++ Q` otherwise (a string argument is passed unchanged);
with a nil `OnRequest` it invokes nothing and does not panic, whatever the
argument. -/
theorem dispatch_on_request (b : BlobsServer) (T : Operation) (calls : List Call) :
    (∀ f : FuncRef, b.onRequest = some f →
      (∀ u : URL, dispatchOnRequestEvent b T (.url (some u)) calls =
        .ok (calls ++ [{ fn := f, arg := { Type_ := T, URL :=
          if u.RawQuery = "" then u.Path else u.Path ++ "?" ++ u.RawQuery } }])) ∧
      (∀ s : String, dispatchOnRequestEvent b T (.str s) calls =
        .ok (calls ++ [{ fn := f, arg := { Type_ := T, URL := s } }]))) ∧
    (b.onRequest = none → ∀ raw : URLRaw, dispatchOnRequestEvent b T raw calls = .ok calls) := by
  refine ⟨fun f hf => ⟨fun u => dispatch_url hf T u calls, fun s => ?_⟩, fun hn raw => ?_⟩
  · simp [dispatchOnRequestEvent, hf]
  · simp [dispatchOnRequestEvent, hn]

theorem dispatch_on_request_witness :
    dispatchOnRequestEvent sampleServer OperationGet
        (.url (some { Scheme := "", Host := "", Path := "/a", RawQuery := "x=1", Fragment := "" }))
        [] =
      .ok [{ fn := { id := 7 }, arg := { Type_ := "get", URL := "/a?x=1" } }] :=
  ((dispatch_on_request sampleServer OperationGet []).1 { id := 7 } rfl).1
    { Scheme := "", Host := "", Path := "/a", RawQuery := "x=1", Fragment := "" }

/-! ## The server constructor: theorems -/

/-- C6, as stated, fails: the constructed server holds the raw secret in its
field `token`, and two servers built from options that differ only in `Token`
differ in that field, not only in `tokenHash`. -/
theorem newBlobsServer_keeps_token :
    (NewBlobsServer sampleHmac [1, 2] [3, 4] (sampleOptions (some "s3cret"))).token =
      some "s3cret" ∧
    sameExceptToken (sampleOptions (some "s3cret")) (sampleOptions (some "other")) ∧
    ¬ agreeExceptTokenHash
      (NewBlobsServer sampleHmac [1, 2] [3, 4] (sampleOptions (some "s3cret")))
      (NewBlobsServer sampleHmac [1, 2] [3, 4] (sampleOptions (some "other"))) := by
  refine ⟨rfl, rfl, ?_⟩
  intro h
  have ht := congrArg BlobsServer.token h
  exact absurd ht (by decide)

/-- C6, amended: the constructed server keeps the configured `Token`,
unchanged, in its field `token`, and a keyed hash of it (of the random filler
when there is no token) in `tokenHash`; for two option values that differ only
in `Token`, with the same random key, the two servers agree on every field
except `token` and `tokenHash`. -/
theorem newBlobsServer_fields (hmacSHA256 : List UInt8 → List UInt8 → List UInt8)
    (key r : List UInt8) (o1 o2 : BlobsServerOptions) (h : sameExceptToken o1 o2) :
    agreeExceptTokenAndHash (NewBlobsServer hmacSHA256 key r o1)
      (NewBlobsServer hmacSHA256 key r o2) ∧
    (NewBlobsServer hmacSHA256 key r o1).token = o1.Token ∧
    (NewBlobsServer hmacSHA256 key r o1).tokenHash =
      hexEncodeToString (hmacSHA256 key
        (match o1.Token with
          | some t => stringBytes t
          | none => r)) := by
  obtain ⟨d1, dir1, l1, on1, p1, t1⟩ := o1
  obtain ⟨d2, dir2, l2, on2, p2, t2⟩ := o2
  simp only [sameExceptToken, BlobsServerOptions.mk.injEq] at h
  obtain ⟨rfl, rfl, rfl, rfl, rfl, -⟩ := h
  refine ⟨rfl, rfl, ?_⟩
  cases t1 <;> rfl

theorem newBlobsServer_fields_witness :
    agreeExceptTokenAndHash
      (NewBlobsServer sampleHmac [1, 2] [3, 4] (sampleOptions (some "s3cret")))
      (NewBlobsServer sampleHmac [1, 2] [3, 4] (sampleOptions (some "other"))) ∧
    (NewBlobsServer sampleHmac [1, 2] [3, 4] (sampleOptions (some "s3cret"))).token =
      some "s3cret" ∧
    (NewBlobsServer sampleHmac [1, 2] [3, 4] (sampleOptions (some "s3cret"))).tokenHash =
      hexEncodeToString (sampleHmac [1, 2] (stringBytes "s3cret")) :=
  newBlobsServer_fields sampleHmac [1, 2] [3, 4] (sampleOptions (some "s3cret"))
    (sampleOptions (some "other")) rfl

/-! ## The release gateway: theorems -/

/-- C10: for every list of releases, the `GET /@latest` handler answers 404
when the list is empty; otherwise it reports the tag name and publish time of
the first release, in list order, that is not a prerelease, and of the first
release of the list when every release is a prerelease. -/
theorem latest_release (releases : List RepositoryRelease) :
    latestHandler (.ok (releases.map some)) =
      match releases with
      | [] => .error "no releases found" 404
      | first :: _ =>
        match releases.find? (fun rel => !GetPrerelease (some rel)) with
        | some rel =>
          .json { Version := GetTagName (some rel), Time := GetPublishedAt (some rel) }
        | none =>
          .json { Version := GetTagName (some first), Time := GetPublishedAt (some first) } := by
  have hloop : ∀ rs : List RepositoryRelease,
      latestLoop (rs.map some) = rs.find? (fun rel => !GetPrerelease (some rel)) := by
    intro rs
    induction rs with
    | nil => rfl
    | cons x xs ih =>
      by_cases hx : GetPrerelease (some x) = true
      · simp [latestLoop, List.find?, hx, ih]
      · simp [latestLoop, List.find?, hx]
  cases releases with
  | nil => rfl
  | cons first rest =>
    have h := hloop (first :: rest)
    simp only [List.map_cons] at h
    simp only [latestHandler, List.map_cons, h]
    cases List.find? (fun rel => !GetPrerelease (some rel)) (first :: rest) <;> rfl

theorem latest_release_witness :
    latestHandler (.ok (sampleReleases.map some)) =
      .json { Version := "v1.1.0", Time := { instant := 20 } } :=
  (latest_release sampleReleases).trans rfl

end GhReleaseModProxy
